import Mathlib

/-!
Verification of `typenum_alias` (src/src/lib.rs): a compile-time numeral
layer defining `struct Const<const N: i32>` together with conversion traits
`ToTypenum` / `ToConst` between `Const<N>` and typenum's verbose signed
integer types (`Z0`, `PInt<U>`, `NInt<U>`), and operator-forwarding
implementations that convert operands to verbose form, let typenum compute,
and convert the result back.

The embedding models trait resolution as partial functions: `none` means
"no trait implementation applies", i.e. a compile-time failure at the use
site.  The typenum crate itself is an external collaborator not present in
the repository; its operator semantics are modelled from the spec (exact
type-level integer arithmetic with domain restrictions).
-/

namespace TypenumAlias

/-- Modelled from the spec: typenum's verbose unsigned encoding, a recursive
bit sequence — `UTerm` is the empty sequence, `UInt u b` appends a least
significant bit `b` below the higher bits `u` (typenum's `UInt<U, B0/B1>`).
The typenum crate is external to the repository. -/
inductive TUns : Type where
  | UTerm : TUns
  | UInt : TUns → Bool → TUns
deriving DecidableEq, Repr

/-- The integer value denoted by a verbose unsigned encoding. -/
def TUns.val : TUns → Nat
  | .UTerm => 0
  | .UInt u b => 2 * u.val + (if b then 1 else 0)

/-- Fuel-driven construction of the canonical (no leading zero) verbose
encoding of a natural number; the fuel argument only bounds recursion depth. -/
def TUns.ofNatFuel : Nat → Nat → TUns
  | _, 0 => .UTerm
  | 0, _ + 1 => .UTerm
  | fuel + 1, n + 1 => .UInt (TUns.ofNatFuel fuel ((n + 1) / 2)) ((n + 1) % 2 == 1)

/-- Modelled from the spec: the canonical verbose encoding of `n`, as used by
typenum's aliases `U1`, `U2`, … (one canonical type per value). -/
def TUns.ofNat (n : Nat) : TUns := TUns.ofNatFuel n n

/-- Modelled from the spec: typenum's verbose signed integer types — the
dedicated zero type `Z0`, positive `PInt<U>` and negative `NInt<U>`. -/
inductive TInt : Type where
  | Z0 : TInt
  | PInt : TUns → TInt
  | NInt : TUns → TInt
deriving DecidableEq, Repr

/-- The integer value denoted by a verbose signed integer type. -/
def TInt.val : TInt → Int
  | .Z0 => 0
  | .PInt u => (u.val : Int)
  | .NInt u => -(u.val : Int)

/-- The canonical verbose signed integer type for a given integer value. -/
def TInt.ofInt (n : Int) : TInt :=
  if n = 0 then .Z0
  else if 0 < n then .PInt (TUns.ofNat n.toNat)
  else .NInt (TUns.ofNat (-n).toNat)

/-- Modelled from the spec: typenum's `Integer` bound — implemented by `Z0`
and by `PInt<U>` / `NInt<U>` for nonzero `U` only. -/
def TInt.IsInteger : TInt → Prop
  | .Z0 => True
  | .PInt u => 0 < u.val
  | .NInt u => 0 < u.val

/-- The literals fed to the `const_conversion!` macro invocation
(src/src/lib.rs lines 142–144). -/
def constRange : List Nat := [1, 2, 3, 4, 5, 6, 7, 8, 9, 10, 11, 12, 13, 14, 15, 16]

/-- `ToTypenum`: the per-value conversion impls — `Const<0> → Z0`
(lib.rs lines 53–55) and, for each literal `m` of `constRange`,
`Const<m> → P m` and `Const<-m> → N m` (the `const_conversion!` macro,
lib.rs lines 61–79).  `none` means no impl exists. -/
def toTypenum (n : Int) : Option TInt :=
  if n = 0 then some .Z0
  else if ∃ m ∈ constRange, n = (m : Int) then some (.PInt (TUns.ofNat n.toNat))
  else if ∃ m ∈ constRange, n = -(m : Int) then some (.NInt (TUns.ofNat (-n).toNat))
  else none

/-- `ToConst`: the inverse impls — `Z0 → Const<0>` (lib.rs lines 57–59) and,
for each literal `m` of `constRange`, `P m → Const<m>` and `N m → Const<-m>`
(the `const_conversion!` macro).  Only the canonical encodings named by the
macro carry an impl; `none` means no impl exists. -/
def toConst : TInt → Option Int
  | .Z0 => some 0
  | .PInt u => if ∃ m ∈ constRange, u = TUns.ofNat m then some (u.val : Int) else none
  | .NInt u => if ∃ m ∈ constRange, u = TUns.ofNat m then some (-(u.val : Int)) else none

/-- A tag value is supported when a `ToTypenum` impl exists for it. -/
def Supported (n : Int) : Prop := toTypenum n ≠ none

instance Supported.instDecidable (n : Int) : Decidable (Supported n) :=
  inferInstanceAs (Decidable (toTypenum n ≠ none))

/-- Modelled from the spec: typenum's type-level `Add` (`Sum`) — exact
addition on verbose integers. -/
def tnAdd (a b : TInt) : Option TInt := some (TInt.ofInt (a.val + b.val))

/-- Modelled from the spec: typenum's type-level `Sub` (`Diff`) — exact
subtraction. -/
def tnSub (a b : TInt) : Option TInt := some (TInt.ofInt (a.val - b.val))

/-- Modelled from the spec: typenum's type-level `Mul` (`Prod`) — exact
multiplication. -/
def tnMul (a b : TInt) : Option TInt := some (TInt.ofInt (a.val * b.val))

/-- Modelled from the spec: typenum's type-level `Div` (`Quot`) — division,
with the facility's domain restrictions: no impl for a zero divisor or when
the result would be non-integral. -/
def tnDiv (a b : TInt) : Option TInt :=
  if b.val = 0 then none
  else if b.val ∣ a.val then some (TInt.ofInt (a.val / b.val)) else none

/-- Modelled from the spec: typenum's `Max` (`Maximum`). -/
def tnMax (a b : TInt) : Option TInt := some (TInt.ofInt (max a.val b.val))

/-- Modelled from the spec: typenum's `Min` (`Minimum`). -/
def tnMin (a b : TInt) : Option TInt := some (TInt.ofInt (min a.val b.val))

/-- Modelled from the spec: typenum's `PartialDiv` (`PartialQuot`) — defined
only where division is exact, same domain restrictions as `Div`. -/
def tnPartialDiv (a b : TInt) : Option TInt := tnDiv a b

/-- Modelled from the spec: typenum's `Gcd` (`Gcf`) — greatest common
divisor. -/
def tnGcd (a b : TInt) : Option TInt := some (TInt.ofInt (Int.gcd a.val b.val))

/-- Modelled from the spec: typenum's type-level ordering `Cmp`, whose
output type is one of `Less`, `Equal`, `Greater`. -/
def tnCmp (a b : TInt) : Ordering :=
  if a.val < b.val then .lt else if a.val = b.val then .eq else .gt

/-- Modelled from the spec: typenum's `Neg` (`Negate`). -/
def tnNeg (a : TInt) : Option TInt := some (TInt.ofInt (-a.val))

/-- Modelled from the spec: typenum's `Abs` (`AbsVal`). -/
def tnAbs (a : TInt) : Option TInt := some (TInt.ofInt |a.val|)

/-- Modelled from the spec: typenum's `Logarithm2` (`Log2`) — floor base-2
logarithm, undefined for non-positive inputs. -/
def tnLog2 (a : TInt) : Option TInt :=
  if 0 < a.val then some (TInt.ofInt (Nat.log2 a.val.toNat)) else none

/-- Modelled from the spec: typenum's `SquareRoot` (`Sqrt`) — floor square
root, undefined for negative inputs. -/
def tnSqrt (a : TInt) : Option TInt :=
  if 0 ≤ a.val then some (TInt.ofInt (Nat.sqrt a.val.toNat)) else none

/-- The binary-operator forwarding scheme generated by
`impl_binary_ops_for_const!` (lib.rs lines 81–110): the impl for
`Const<L> op Const<R>` exists exactly when `Const<L>: ToTypenum`,
`Const<R>: ToTypenum`, the verbose forms support the operation, and the
verbose result has a `ToConst` impl; its output is that impl's tag value. -/
def constBinOp (op : TInt → TInt → Option TInt) (l r : Int) : Option Int := do
  let a ← toTypenum l
  let b ← toTypenum r
  let c ← op a b
  toConst c

/-- Forwarded `Add` on tags (lib.rs lines 148–156). -/
def constAdd : Int → Int → Option Int := constBinOp tnAdd

/-- Forwarded `Sub` on tags. -/
def constSub : Int → Int → Option Int := constBinOp tnSub

/-- Forwarded `Mul` on tags. -/
def constMul : Int → Int → Option Int := constBinOp tnMul

/-- Forwarded `Div` on tags. -/
def constDiv : Int → Int → Option Int := constBinOp tnDiv

/-- Forwarded `Max` on tags. -/
def constMax : Int → Int → Option Int := constBinOp tnMax

/-- Forwarded `Min` on tags. -/
def constMin : Int → Int → Option Int := constBinOp tnMin

/-- Forwarded `PartialDiv` on tags. -/
def constPartialDiv : Int → Int → Option Int := constBinOp tnPartialDiv

/-- Forwarded `Gcd` on tags (lib.rs lines 158–160). -/
def constGcd : Int → Int → Option Int := constBinOp tnGcd

/-- The unary-operator forwarding scheme generated by
`impl_unary_ops_for_const!` (lib.rs lines 112–139). -/
def constUnOp (op : TInt → Option TInt) (n : Int) : Option Int := do
  let a ← toTypenum n
  let c ← op a
  toConst c

/-- Forwarded `Neg` on tags (lib.rs lines 181–183). -/
def constNeg : Int → Option Int := constUnOp tnNeg

/-- Forwarded `Abs` on tags (lib.rs lines 185–188). -/
def constAbs : Int → Option Int := constUnOp tnAbs

/-- Forwarded `Logarithm2` on tags. -/
def constLog2 : Int → Option Int := constUnOp tnLog2

/-- Forwarded `SquareRoot` on tags. -/
def constSqrt : Int → Option Int := constUnOp tnSqrt

/-- Forwarded `Cmp` on tags (lib.rs lines 164–177): both operands are
converted to verbose form and the verbose facility's ordering decides the
output type.  The `Compare<..>: Default` bound always holds (the three
ordering types are default-constructible unit types). -/
def constCmp (l r : Int) : Option Ordering := do
  let a ← toTypenum l
  let b ← toTypenum r
  pure (tnCmp a b)

/-- Runtime representation of `struct Const<const N: i32>` — a zero-sized
marker carrying no data (lib.rs lines 38–39). -/
inductive Const (n : Int) : Type where
  | mk : Const n
deriving DecidableEq

/-- The `#[derive(Default)]` instance of `Const<N>`. -/
def Const.defaultVal (n : Int) : Const n := .mk

/-- Body of every generated binary-operator method
(`fn $fn(self, _: Const<R>) -> Self::Output { Self::Output::default() }`,
lib.rs lines 92–95): both operands are ignored. -/
def binOpMethod (l r out : Int) : Const l → Const r → Const out :=
  fun _ _ => Const.defaultVal out

/-- Body of every generated unary-operator method (lib.rs lines 122–125):
the operand is ignored. -/
def unOpMethod (n out : Int) : Const n → Const out :=
  fun _ => Const.defaultVal out

/-! ### Basic lemmas about the encodings and conversions -/

theorem TUns.val_ofNatFuel : ∀ fuel n, n ≤ fuel → (TUns.ofNatFuel fuel n).val = n := by
  intro fuel
  induction fuel with
  | zero =>
    intro n h
    have hn : n = 0 := by omega
    subst hn; rfl
  | succ f ih =>
    intro n h
    match n with
    | 0 => rfl
    | m + 1 =>
      simp only [TUns.ofNatFuel, TUns.val, ih ((m + 1) / 2) (by omega)]
      rcases Nat.mod_two_eq_zero_or_one (m + 1) with h2 | h2 <;> simp [h2] <;> omega

theorem TUns.val_ofNat (n : Nat) : (TUns.ofNat n).val = n :=
  TUns.val_ofNatFuel n n le_rfl

theorem TUns.ofNat_inj {a b : Nat} (h : TUns.ofNat a = TUns.ofNat b) : a = b := by
  have ha := TUns.val_ofNat a
  rw [h, TUns.val_ofNat] at ha
  omega

theorem TInt.val_ofInt (n : Int) : (TInt.ofInt n).val = n := by
  unfold TInt.ofInt
  split_ifs with h0 hp <;> simp [TInt.val, TUns.val_ofNat] <;> omega

theorem exists_constRange_iff (n : Int) :
    (∃ m ∈ constRange, n = (m : Int)) ↔ 1 ≤ n ∧ n ≤ 16 := by
  simp [constRange]
  omega

theorem exists_neg_constRange_iff (n : Int) :
    (∃ m ∈ constRange, n = -(m : Int)) ↔ -16 ≤ n ∧ n ≤ -1 := by
  simp [constRange]
  omega

theorem toConst_Z0 : toConst TInt.Z0 = some 0 := rfl

theorem toConst_PInt (u : TUns) :
    toConst (TInt.PInt u) =
      if ∃ m ∈ constRange, u = TUns.ofNat m then some (u.val : Int) else none := rfl

theorem toConst_NInt (u : TUns) :
    toConst (TInt.NInt u) =
      if ∃ m ∈ constRange, u = TUns.ofNat m then some (-(u.val : Int)) else none := rfl

theorem exists_ofNat_eq (k : Nat) :
    (∃ m ∈ constRange, TUns.ofNat k = TUns.ofNat m) ↔ 1 ≤ k ∧ k ≤ 16 := by
  constructor
  · rintro ⟨m, hm, he⟩
    have := TUns.ofNat_inj he
    simp [constRange] at hm
    omega
  · intro hk
    exact ⟨k, by simp [constRange]; omega, rfl⟩

theorem toTypenum_eq (n : Int) :
    toTypenum n = if -16 ≤ n ∧ n ≤ 16 then some (TInt.ofInt n) else none := by
  unfold toTypenum TInt.ofInt
  by_cases h0 : n = 0
  · subst h0
    norm_num
  · rw [if_neg h0]
    by_cases hp : 1 ≤ n ∧ n ≤ 16
    · rw [if_pos ((exists_constRange_iff n).2 hp), if_pos (by omega),
        if_neg h0, if_pos (by omega)]
    · rw [if_neg (by rw [exists_constRange_iff]; omega)]
      by_cases hq : -16 ≤ n ∧ n ≤ -1
      · rw [if_pos ((exists_neg_constRange_iff n).2 hq), if_pos (by omega),
          if_neg h0, if_neg (by omega)]
      · rw [if_neg (by rw [exists_neg_constRange_iff]; omega), if_neg (by omega)]

theorem toConst_ofInt (n : Int) :
    toConst (TInt.ofInt n) = if -16 ≤ n ∧ n ≤ 16 then some n else none := by
  unfold TInt.ofInt
  by_cases h0 : n = 0
  · subst h0
    rw [if_pos rfl, toConst_Z0, if_pos (by omega)]
  · rw [if_neg h0]
    by_cases hp : 0 < n
    · rw [if_pos hp, toConst_PInt]
      by_cases h16 : n ≤ 16
      · rw [if_pos ((exists_ofNat_eq n.toNat).2 (by omega)), if_pos (by omega),
          TUns.val_ofNat]
        congr 1
        omega
      · rw [if_neg (by rw [exists_ofNat_eq]; omega), if_neg (by omega)]
    · rw [if_neg hp, toConst_NInt]
      by_cases h16 : -16 ≤ n
      · rw [if_pos ((exists_ofNat_eq (-n).toNat).2 (by omega)), if_pos (by omega),
          TUns.val_ofNat]
        congr 1
        omega
      · rw [if_neg (by rw [exists_ofNat_eq]; omega), if_neg (by omega)]

theorem toConst_eq_some {t : TInt} {n : Int} (h : toConst t = some n) :
    t = TInt.ofInt n ∧ -16 ≤ n ∧ n ≤ 16 := by
  match t with
  | .Z0 =>
    rw [toConst_Z0] at h
    have hn : n = 0 := (Option.some.inj h).symm
    subst hn
    exact ⟨rfl, by omega, by omega⟩
  | .PInt u =>
    rw [toConst_PInt] at h
    split_ifs at h with hc
    obtain ⟨m, hm, he⟩ := hc
    simp [constRange] at hm
    have hv : u.val = m := by rw [he, TUns.val_ofNat]
    have hn : n = (m : Int) := by
      have := Option.some.inj h
      omega
    refine ⟨?_, by omega, by omega⟩
    unfold TInt.ofInt
    rw [if_neg (by omega), if_pos (by omega), he, hn]
    congr 2 <;> omega
  | .NInt u =>
    rw [toConst_NInt] at h
    split_ifs at h with hc
    obtain ⟨m, hm, he⟩ := hc
    simp [constRange] at hm
    have hv : u.val = m := by rw [he, TUns.val_ofNat]
    have hn : n = -(m : Int) := by
      have := Option.some.inj h
      omega
    refine ⟨?_, by omega, by omega⟩
    unfold TInt.ofInt
    rw [if_neg (by omega), if_neg (by omega), he, hn]
    congr 2 <;> omega

theorem supported_iff (n : Int) : Supported n ↔ -16 ≤ n ∧ n ≤ 16 := by
  rw [Supported, toTypenum_eq]
  split_ifs with h <;> simp [h]

theorem constBinOp_char (op : TInt → TInt → Option TInt) (l r : Int) :
    constBinOp op l r =
      if (-16 ≤ l ∧ l ≤ 16) ∧ (-16 ≤ r ∧ r ≤ 16) then
        (op (TInt.ofInt l) (TInt.ofInt r)).bind toConst
      else none := by
  unfold constBinOp
  simp only [toTypenum_eq, bind]
  by_cases hl : -16 ≤ l ∧ l ≤ 16 <;> by_cases hr : -16 ≤ r ∧ r ≤ 16 <;>
    simp [hl, hr]

theorem constUnOp_char (op : TInt → Option TInt) (n : Int) :
    constUnOp op n =
      if -16 ≤ n ∧ n ≤ 16 then (op (TInt.ofInt n)).bind toConst else none := by
  unfold constUnOp
  simp only [toTypenum_eq, bind]
  by_cases hn : -16 ≤ n ∧ n ≤ 16 <;> simp [hn]

theorem constCmp_char (l r : Int) :
    constCmp l r =
      if (-16 ≤ l ∧ l ≤ 16) ∧ (-16 ≤ r ∧ r ≤ 16) then
        some (tnCmp (TInt.ofInt l) (TInt.ofInt r))
      else none := by
  unfold constCmp
  simp only [toTypenum_eq, bind]
  by_cases hl : -16 ≤ l ∧ l ≤ 16 <;> by_cases hr : -16 ≤ r ∧ r ≤ 16 <;>
    simp [hl, hr]

theorem constBinOp_val (f : Int → Int → Int) (op : TInt → TInt → Option TInt)
    (hop : ∀ a b : TInt, op a b = some (TInt.ofInt (f a.val b.val))) (l r : Int) :
    constBinOp op l r =
      if (-16 ≤ l ∧ l ≤ 16) ∧ (-16 ≤ r ∧ r ≤ 16) ∧ (-16 ≤ f l r ∧ f l r ≤ 16)
      then some (f l r) else none := by
  rw [constBinOp_char]
  by_cases hl : -16 ≤ l ∧ l ≤ 16
  · by_cases hr : -16 ≤ r ∧ r ≤ 16
    · rw [if_pos ⟨hl, hr⟩, hop, Option.some_bind, toConst_ofInt,
        TInt.val_ofInt, TInt.val_ofInt]
      by_cases hf : -16 ≤ f l r ∧ f l r ≤ 16
      · rw [if_pos hf, if_pos ⟨hl, hr, hf⟩]
      · rw [if_neg hf, if_neg (by tauto)]
    · rw [if_neg (by tauto), if_neg (by tauto)]
  · rw [if_neg (by tauto), if_neg (by tauto)]

theorem constDiv_char (l r : Int) :
    constDiv l r =
      if (-16 ≤ l ∧ l ≤ 16) ∧ (-16 ≤ r ∧ r ≤ 16) ∧ r ≠ 0 ∧ r ∣ l ∧
          (-16 ≤ l / r ∧ l / r ≤ 16)
      then some (l / r) else none := by
  show constBinOp tnDiv l r = _
  rw [constBinOp_char]
  by_cases hl : -16 ≤ l ∧ l ≤ 16
  · by_cases hr : -16 ≤ r ∧ r ≤ 16
    · rw [if_pos ⟨hl, hr⟩]
      unfold tnDiv
      rw [TInt.val_ofInt, TInt.val_ofInt]
      by_cases h0 : r = 0
      · rw [if_pos h0, Option.none_bind, if_neg (by tauto)]
      · rw [if_neg h0]
        by_cases hd : r ∣ l
        · rw [if_pos hd, Option.some_bind, toConst_ofInt]
          by_cases hq : -16 ≤ l / r ∧ l / r ≤ 16
          · rw [if_pos hq, if_pos ⟨hl, hr, h0, hd, hq⟩]
          · rw [if_neg hq, if_neg (by tauto)]
        · rw [if_neg hd, Option.none_bind, if_neg (by tauto)]
    · rw [if_neg (by tauto), if_neg (by tauto)]
  · rw [if_neg (by tauto), if_neg (by tauto)]

theorem constPartialDiv_eq_constDiv : constPartialDiv = constDiv := rfl

theorem constAdd_char (l r : Int) :
    constAdd l r =
      if (-16 ≤ l ∧ l ≤ 16) ∧ (-16 ≤ r ∧ r ≤ 16) ∧ (-16 ≤ l + r ∧ l + r ≤ 16)
      then some (l + r) else none :=
  constBinOp_val (fun a b => a + b) tnAdd (fun _ _ => rfl) l r

theorem constSub_char (l r : Int) :
    constSub l r =
      if (-16 ≤ l ∧ l ≤ 16) ∧ (-16 ≤ r ∧ r ≤ 16) ∧ (-16 ≤ l - r ∧ l - r ≤ 16)
      then some (l - r) else none :=
  constBinOp_val (fun a b => a - b) tnSub (fun _ _ => rfl) l r

theorem constMul_char (l r : Int) :
    constMul l r =
      if (-16 ≤ l ∧ l ≤ 16) ∧ (-16 ≤ r ∧ r ≤ 16) ∧ (-16 ≤ l * r ∧ l * r ≤ 16)
      then some (l * r) else none :=
  constBinOp_val (fun a b => a * b) tnMul (fun _ _ => rfl) l r

theorem constMax_char (l r : Int) :
    constMax l r =
      if (-16 ≤ l ∧ l ≤ 16) ∧ (-16 ≤ r ∧ r ≤ 16) ∧ (-16 ≤ max l r ∧ max l r ≤ 16)
      then some (max l r) else none :=
  constBinOp_val (fun a b => max a b) tnMax (fun _ _ => rfl) l r

theorem constMin_char (l r : Int) :
    constMin l r =
      if (-16 ≤ l ∧ l ≤ 16) ∧ (-16 ≤ r ∧ r ≤ 16) ∧ (-16 ≤ min l r ∧ min l r ≤ 16)
      then some (min l r) else none :=
  constBinOp_val (fun a b => min a b) tnMin (fun _ _ => rfl) l r

theorem constGcd_char (l r : Int) :
    constGcd l r =
      if (-16 ≤ l ∧ l ≤ 16) ∧ (-16 ≤ r ∧ r ≤ 16) ∧
          (-16 ≤ (Int.gcd l r : Int) ∧ (Int.gcd l r : Int) ≤ 16)
      then some (Int.gcd l r : Int) else none :=
  constBinOp_val (fun a b => (Int.gcd a b : Int)) tnGcd (fun _ _ => rfl) l r

theorem constNeg_char (n : Int) :
    constNeg n =
      if (-16 ≤ n ∧ n ≤ 16) ∧ (-16 ≤ -n ∧ -n ≤ 16) then some (-n) else none := by
  show constUnOp tnNeg n = _
  rw [constUnOp_char]
  by_cases hn : -16 ≤ n ∧ n ≤ 16
  · rw [if_pos hn]
    unfold tnNeg
    rw [TInt.val_ofInt, Option.some_bind, toConst_ofInt]
    by_cases hm : -16 ≤ -n ∧ -n ≤ 16
    · rw [if_pos hm, if_pos ⟨hn, hm⟩]
    · rw [if_neg hm, if_neg (by tauto)]
  · rw [if_neg hn, if_neg (by tauto)]

/-! ### Claim theorems -/

/-- C1, counterexample: the claim's example `Const<6> * Const<7> = Const<42>`
fails on the code — 42 is outside the supported range `-16..=16`, so the
verbose product `P42` has no `ToConst` impl and the forwarded `Mul` impl does
not apply at `(6, 7)`. -/
theorem C1_counterexample_mul_6_7 : constMul 6 7 ≠ some 42 := by decide

/-- C1 (amended): for every supported operand pair and every forwarded binary
operation, whenever the operation is defined its result is exactly `f(L, R)`
for the mathematical function `f`; in particular `Const<3> + Const<4> =
Const<7>` and `Const<10> - Const<15> = Const<-5>`, while `Const<6> *
Const<7>` fails to compile because 42 lies outside the supported range. -/
theorem C1_forwarded_arithmetic_exact :
    (∀ l r s : Int, constAdd l r = some s → s = l + r) ∧
    (∀ l r s : Int, constSub l r = some s → s = l - r) ∧
    (∀ l r s : Int, constMul l r = some s → s = l * r) ∧
    (∀ l r s : Int, constDiv l r = some s → r ≠ 0 ∧ r ∣ l ∧ s = l / r) ∧
    (∀ l r s : Int, constMax l r = some s → s = max l r) ∧
    (∀ l r s : Int, constMin l r = some s → s = min l r) ∧
    (∀ l r s : Int, constPartialDiv l r = some s → r ≠ 0 ∧ r ∣ l ∧ s = l / r) ∧
    (∀ l r s : Int, constGcd l r = some s → s = (Int.gcd l r : Int)) ∧
    constAdd 3 4 = some 7 ∧ constSub 10 15 = some (-5) ∧ constMul 6 7 = none := by
  refine ⟨?_, ?_, ?_, ?_, ?_, ?_, ?_, ?_, by decide, by decide, by decide⟩
  · intro l r s h
    rw [constAdd_char] at h
    split_ifs at h
    exact (Option.some.inj h).symm
  · intro l r s h
    rw [constSub_char] at h
    split_ifs at h
    exact (Option.some.inj h).symm
  · intro l r s h
    rw [constMul_char] at h
    split_ifs at h
    exact (Option.some.inj h).symm
  · intro l r s h
    rw [constDiv_char] at h
    split_ifs at h with hc
    exact ⟨hc.2.2.1, hc.2.2.2.1, (Option.some.inj h).symm⟩
  · intro l r s h
    rw [constMax_char] at h
    split_ifs at h
    exact (Option.some.inj h).symm
  · intro l r s h
    rw [constMin_char] at h
    split_ifs at h
    exact (Option.some.inj h).symm
  · intro l r s h
    rw [constPartialDiv_eq_constDiv, constDiv_char] at h
    split_ifs at h with hc
    exact ⟨hc.2.2.1, hc.2.2.2.1, (Option.some.inj h).symm⟩
  · intro l r s h
    rw [constGcd_char] at h
    split_ifs at h
    exact (Option.some.inj h).symm

/-- C1 witness: the addition law applied at the concrete pair (3, 4). -/
theorem C1_forwarded_arithmetic_exact_witness : (7 : Int) = 3 + 4 :=
  C1_forwarded_arithmetic_exact.1 3 4 7 (by decide)

/-- C2: every `N` in `-16..=16` converts to verbose form and back to exactly
`Const<N>`; every verbose type carrying a `ToConst` impl converts back to
exactly itself; and each value and each verbose type has at most one
counterpart in the other encoding (the conversions are mutual inverses). -/
theorem C2_conversion_bijection :
    (∀ n : Int, -16 ≤ n → n ≤ 16 →
      ∃ t, toTypenum n = some t ∧ toConst t = some n) ∧
    (∀ (t : TInt) (n : Int), toConst t = some n → toTypenum n = some t) ∧
    (∀ (t t' : TInt) (n : Int), toConst t = some n → toConst t' = some n →
      t = t') ∧
    (∀ (n n' : Int) (t : TInt), toTypenum n = some t → toTypenum n' = some t →
      n = n') := by
  refine ⟨?_, ?_, ?_, ?_⟩
  · intro n h1 h2
    exact ⟨TInt.ofInt n, by rw [toTypenum_eq, if_pos ⟨h1, h2⟩],
      by rw [toConst_ofInt, if_pos ⟨h1, h2⟩]⟩
  · intro t n h
    obtain ⟨ht, h1, h2⟩ := toConst_eq_some h
    rw [toTypenum_eq, if_pos ⟨h1, h2⟩, ht]
  · intro t t' n h h'
    rw [(toConst_eq_some h).1, (toConst_eq_some h').1]
  · intro n n' t h h'
    rw [toTypenum_eq] at h h'
    split_ifs at h h'
    have := (Option.some.inj h).trans (Option.some.inj h').symm
    have hv := congrArg TInt.val this
    rwa [TInt.val_ofInt, TInt.val_ofInt] at hv

/-- C2 witness: the round trip applied at the concrete value 7. -/
theorem C2_conversion_bijection_witness :
    ∃ t, toTypenum 7 = some t ∧ toConst t = some 7 :=
  C2_conversion_bijection.1 7 (by decide) (by decide)

/-- C3: the forwarded ordering reports `Const<5>` Greater than `Const<3>`,
`Const<-2>` Less than `Const<0>`, and `Const<4>` Equal to `Const<4>`. -/
theorem C3_comparison_examples :
    constCmp 5 3 = some Ordering.gt ∧ constCmp (-2) 0 = some Ordering.lt ∧
      constCmp 4 4 = some Ordering.eq := by decide

/-- C4: for in-range operands whose mathematically correct result falls
outside the supported range, no forwarding impl applies (the result type has
no `ToConst` impl), so the operation is a compile failure — `none` in the
model; in particular `Const<16> + Const<16>` does not compile. -/
theorem C4_out_of_range_result_fails :
    (∀ l r : Int, Supported l → Supported r → ¬ Supported (l + r) →
      constAdd l r = none) ∧
    (∀ l r : Int, Supported l → Supported r → ¬ Supported (l - r) →
      constSub l r = none) ∧
    (∀ l r : Int, Supported l → Supported r → ¬ Supported (l * r) →
      constMul l r = none) ∧
    (∀ l r : Int, Supported l → Supported r → ¬ Supported (max l r) →
      constMax l r = none) ∧
    (∀ l r : Int, Supported l → Supported r → ¬ Supported (min l r) →
      constMin l r = none) ∧
    (∀ l r : Int, Supported l → Supported r → ¬ Supported ((Int.gcd l r : Int)) →
      constGcd l r = none) ∧
    (∀ l r : Int, Supported l → Supported r → r ≠ 0 → r ∣ l →
      ¬ Supported (l / r) → constDiv l r = none ∧ constPartialDiv l r = none) ∧
    constAdd 16 16 = none := by
  refine ⟨?_, ?_, ?_, ?_, ?_, ?_, ?_, by decide⟩
  · intro l r hl hr hs
    rw [supported_iff] at hl hr hs
    rw [constAdd_char, if_neg (by tauto)]
  · intro l r hl hr hs
    rw [supported_iff] at hl hr hs
    rw [constSub_char, if_neg (by tauto)]
  · intro l r hl hr hs
    rw [supported_iff] at hl hr hs
    rw [constMul_char, if_neg (by tauto)]
  · intro l r hl hr hs
    rw [supported_iff] at hl hr hs
    rw [constMax_char, if_neg (by tauto)]
  · intro l r hl hr hs
    rw [supported_iff] at hl hr hs
    rw [constMin_char, if_neg (by tauto)]
  · intro l r hl hr hs
    rw [supported_iff] at hl hr hs
    rw [constGcd_char, if_neg (by tauto)]
  · intro l r hl hr h0 hd hs
    rw [supported_iff] at hl hr hs
    constructor
    · rw [constDiv_char, if_neg (by tauto)]
    · rw [constPartialDiv_eq_constDiv, constDiv_char, if_neg (by tauto)]

/-- C4 witness: the addition case applied at the concrete pair (16, 16),
whose correct sum 32 is unsupported. -/
theorem C4_out_of_range_result_fails_witness : constAdd 16 16 = none :=
  C4_out_of_range_result_fails.1 16 16 (by decide) (by decide) (by decide)

/-- C5: `Const<5> / Const<0>` has no applicable impl, and the square root of
`Const<-9>` has no applicable impl — both are compile failures. -/
theorem C5_undefined_ops_fail :
    constDiv 5 0 = none ∧ constSqrt (-9) = none := by decide

/-- C6: division and partial-division by the tag for zero, or with a
non-integral quotient, have no forwarding impl — `Const<7> / Const<2>` in
particular is a compile failure, never a runtime panic or a wrong answer. -/
theorem C6_division_domain_restrictions :
    (∀ l r : Int, r = 0 ∨ ¬ (r ∣ l) →
      constDiv l r = none ∧ constPartialDiv l r = none) ∧
    constDiv 7 2 = none ∧ constPartialDiv 7 2 = none := by
  refine ⟨?_, by decide, by decide⟩
  intro l r h
  constructor
  · rw [constDiv_char, if_neg (by tauto)]
  · rw [constPartialDiv_eq_constDiv, constDiv_char, if_neg (by tauto)]

/-- C6 witness: the domain restriction applied at the concrete pair (7, 2),
whose quotient is non-integral. -/
theorem C6_division_domain_restrictions_witness :
    constDiv 7 2 = none ∧ constPartialDiv 7 2 = none :=
  C6_division_domain_restrictions.1 7 2 (Or.inr (by decide))

/-- C7: negating `Const<0>` yields `Const<0>`, and `Const<0>` is a two-sided
additive identity on every supported tag. -/
theorem C7_zero_identity :
    constNeg 0 = some 0 ∧
    (∀ n : Int, Supported n → constAdd 0 n = some n ∧ constAdd n 0 = some n) := by
  refine ⟨by decide, ?_⟩
  intro n h
  rw [supported_iff] at h
  constructor
  · rw [constAdd_char, if_pos ⟨by omega, h, by omega⟩, zero_add]
  · rw [constAdd_char, if_pos ⟨h, by omega, by omega⟩, add_zero]

/-- C7 witness: the additive-identity law applied at the concrete value 5. -/
theorem C7_zero_identity_witness :
    constAdd 0 5 = some 5 ∧ constAdd 5 0 = some 5 :=
  C7_zero_identity.2 5 (by decide)

/-- C8: every generated operator method ignores its operand values and
returns the default instance of the result type, so the runtime result is
independent of the operands passed in. -/
theorem C8_methods_return_default :
    (∀ (l r out : Int) (x : Const l) (y : Const r),
      binOpMethod l r out x y = Const.defaultVal out) ∧
    (∀ (l r out : Int) (x x' : Const l) (y y' : Const r),
      binOpMethod l r out x y = binOpMethod l r out x' y') ∧
    (∀ (n out : Int) (z : Const n), unOpMethod n out z = Const.defaultVal out) ∧
    (∀ (n out : Int) (z z' : Const n),
      unOpMethod n out z = unOpMethod n out z') :=
  ⟨fun _ _ _ _ _ => rfl, fun _ _ _ _ _ _ _ => rfl, fun _ _ _ => rfl,
    fun _ _ _ _ => rfl⟩

/-- C9: whenever the forwarded comparison is defined, its output is obtained
by converting both operands to verbose form and delegating to the verbose
facility's ordering, and it is one of Less, Equal, Greater. -/
theorem C9_cmp_delegates_to_verbose :
    ∀ (l r : Int) (o : Ordering), constCmp l r = some o →
      (∃ a b, toTypenum l = some a ∧ toTypenum r = some b ∧ o = tnCmp a b) ∧
      (o = Ordering.lt ∨ o = Ordering.eq ∨ o = Ordering.gt) := by
  intro l r o h
  rw [constCmp_char] at h
  split_ifs at h with hc
  refine ⟨⟨TInt.ofInt l, TInt.ofInt r, ?_, ?_, (Option.some.inj h).symm⟩, ?_⟩
  · rw [toTypenum_eq, if_pos hc.1]
  · rw [toTypenum_eq, if_pos hc.2]
  · cases o <;> simp

/-- C9 witness: the delegation law applied at the concrete pair (5, 3). -/
theorem C9_cmp_delegates_to_verbose_witness :
    (∃ a b, toTypenum 5 = some a ∧ toTypenum 3 = some b ∧
      Ordering.gt = tnCmp a b) ∧
    (Ordering.gt = Ordering.lt ∨ Ordering.gt = Ordering.eq ∨
      Ordering.gt = Ordering.gt) :=
  C9_cmp_delegates_to_verbose 5 3 Ordering.gt (by decide)

/-- C10: every `ToTypenum` output satisfies the verbose facility's `Integer`
bound (`Z0`, or `PInt`/`NInt` over a nonzero unsigned), and every `ToConst`
output is default-constructible, which makes `Output::default()` in the
forwarded methods well-defined. -/
theorem C10_conversion_outputs_wellformed :
    (∀ (n : Int) (t : TInt), toTypenum n = some t → t.IsInteger) ∧
    (∀ (t : TInt) (n : Int), toConst t = some n →
      ∃ x : Const n, x = Const.defaultVal n) := by
  constructor
  · intro n t h
    rw [toTypenum_eq] at h
    split_ifs at h with hc
    rw [← Option.some.inj h]
    unfold TInt.ofInt
    split_ifs with h0 hp
    · trivial
    · show 0 < (TUns.ofNat n.toNat).val
      rw [TUns.val_ofNat]
      omega
    · show 0 < (TUns.ofNat (-n).toNat).val
      rw [TUns.val_ofNat]
      omega
  · intro t n _
    exact ⟨Const.defaultVal n, rfl⟩

/-- C10 witness: the invariants applied at the concrete value 3 and the
concrete verbose type `Z0`. -/
theorem C10_conversion_outputs_wellformed_witness :
    (TInt.ofInt 3).IsInteger ∧ ∃ x : Const 0, x = Const.defaultVal 0 :=
  ⟨C10_conversion_outputs_wellformed.1 3 (TInt.ofInt 3) (by decide),
    C10_conversion_outputs_wellformed.2 TInt.Z0 0 (by decide)⟩

end TypenumAlias
